import Mathlib

/-!
# VectorMCP — verification of the retrieval / MCP protocol core

Shallow embedding of the VectorMCP server (JavaScript) in Lean 4:

* `src/parsers.js` — the JSON-RPC dispatcher `handleRpc`, tool resolution
  (`findTool` / `callTool`), and the stdio / SSE transports;
* `src/server.js` — the REST `/mcp/query` session re-ranking path and
  `toMcpSchema`;
* `src/analytics.js` — `ActivityTracker.recordEvent` / `getActivity`.

Modelling conventions:

* JavaScript strings are `String` (lists of characters) at the dispatcher
  level and `List Char` where index arithmetic matters (the stdio framing
  works on UTF-16 code units of a decoded `utf8` stream, so one `Char`
  stands for one code unit; all characters used stay in the BMP).
* JavaScript numbers carrying similarity scores are modelled as `Rat`
  (exact rationals); `1.3` denotes `13/10`.
* Absent (`undefined`) fields are `Option` fields; JavaScript truthiness
  of an optional string (`undefined` and `''` are falsy) is `truthyS`.
* `fetch` and `index.search` are effectful collaborators of the
  dispatcher; they enter the model as explicit function parameters
  (`ProxyEnv.search`, `ProxyEnv.fetch`), so the dispatcher itself stays a
  pure function of its inputs exactly as the source routes them.
-/

/-! ## JavaScript-flavoured string helpers -/

/-- The characters matched by JavaScript `\s` (restricted to the ASCII
whitespace actually relevant here), used by `String.prototype.trim` and by
the `\s*` in the `Content-Length` regex of `parsers.js`. -/
def isJsSpace (c : Char) : Bool :=
  c == ' ' || c == '\t' || c == '\n' || c == '\r' || c == '\x0b' || c == '\x0c'

/-- Trim on character lists: drop leading and trailing JS whitespace. -/
def trimChars (l : List Char) : List Char :=
  ((l.dropWhile isJsSpace).reverse.dropWhile isJsSpace).reverse

/-- JavaScript `String.prototype.trim`. -/
def jsTrim (s : String) : String :=
  ⟨trimChars s.data⟩

/-- Truthiness of an optional JavaScript string: `undefined` and the empty
string are falsy. -/
def truthyS : Option String → Bool
  | none => false
  | some s => s ≠ ""

/-! ## Data model (`makeTool` in `parsers.js`) -/

/-- The duck-typed `invoke` descriptor stored on a tool record.  All fields
are optional, mirroring the JavaScript object. -/
structure InvokeDesc where
  type : Option String := none
  url : Option String := none
  method : Option String := none
  tool : Option String := none
deriving DecidableEq, Repr

/-- A tool record as produced by `makeTool` in `parsers.js`.  The parameter
schema is an association list of property name to (opaque) type descriptor. -/
structure Tool where
  id : String := ""
  name : String := ""
  description : String := ""
  «params» : List (String × String) := []
  source : String := ""
  category : String := "general"
  invoke : InvokeDesc := {}
  version : Option String := none
  dependencies : List String := []
  skillFormat : Bool := false
deriving DecidableEq, Repr

/-- The wire tool schema built by `toMcpSchema` in `server.js`: the
`skillMeta` field is `some (version, dependencies)` exactly when the
conditional spread `...(tool.skillFormat && {...})` fires. -/
structure McpSchema where
  name : String
  description : String
  properties : List (String × String)
  toolId : String
  category : String
  source : String
  skillMeta : Option (Option String × List String)
deriving DecidableEq, Repr

/-- `toMcpSchema` (`server.js`). -/
def toMcpSchema (t : Tool) : McpSchema :=
  { name := t.name
    description := t.description
    properties := t.params
    toolId := t.id
    category := t.category
    source := t.source
    skillMeta := if t.skillFormat then some (t.version, t.dependencies) else none }

/-- One `{type, text}` content block of an MCP tool-call result. -/
structure ContentBlock where
  type : String
  text : String
deriving DecidableEq, Repr

/-- The optional `metadata` object attached to a tool-call result. -/
structure CallMeta where
  toolId : Option String := none
  status : Option Nat := none
  upstream : Option String := none
deriving DecidableEq, Repr

/-- A `tools/call` result object (`callTool` in `parsers.js`). -/
structure CallResult where
  isError : Bool := false
  content : List ContentBlock
  metadata : Option CallMeta := none
deriving DecidableEq, Repr

/-- One raw `{score, tool}` match from `index.search`. -/
structure SearchMatch where
  score : Rat
  tool : Tool
deriving DecidableEq, Repr

/-- The body shape of an outbound HTTP call issued by `callTool`: a WebMCP
`tools/call` envelope or the generic `{tool, args}` envelope.  `args` is
the JSON-encoded arguments object, carried opaquely. -/
inductive FetchReq where
  | webmcp (toolName : String) (args : String)
  | generic (method : String) (toolName : String) (args : String)
deriving DecidableEq, Repr

/-- The environment captured by the `createMcpProxy` closure: the tool
registry, the semantic search over the vector index (a function of query
text and `topK`), and the outcome of `fetch` (per url and request body,
either a thrown error message or a `(status, text)` response). -/
structure ProxyEnv where
  tools : List Tool
  search : String → Nat → List SearchMatch
  fetch : String → FetchReq → Except String (Nat × String)

/-! ## JSON-RPC messages -/

/-- A JSON-RPC id: number, string or `null`.  A request whose `id` field is
absent (`undefined`) is a notification; `id: null` is a present id. -/
inductive RpcId where
  | num (n : Int)
  | str (s : String)
  | null
deriving DecidableEq, Repr

/-- One element of `params.messages` in a `completion/complete` request. -/
structure RpcMessageItem where
  content : Option String := none
deriving DecidableEq, Repr

/-- The `params` object of a request, with every field optional as in the
JavaScript source.  `metadataToolId` stands for `params.metadata?.toolId`;
`arguments` carries the JSON-encoded arguments object opaquely. -/
structure RpcParams where
  contextHint : Option String := none
  topK : Option Nat := none
  name : Option String := none
  toolId : Option String := none
  metadataToolId : Option String := none
  «arguments» : Option String := none
  prompt : Option String := none
  context : Option String := none
  input : Option String := none
  messages : Option (List RpcMessageItem) := none
deriving DecidableEq, Repr

/-- A decoded JSON-RPC request (`const { id, method, params = {} }`). -/
structure RpcRequest where
  id : Option RpcId := none
  method : Option String := none
  «params» : RpcParams := {}

/-- The `result` payloads the dispatcher can produce. -/
inductive RpcResult where
  | initResult (protocolVersion serverName serverVersion : String)
  | toolsList (tools : List McpSchema)
  | callResult (r : CallResult)
  | completion (suggestions : List (McpSchema × Rat))
deriving DecidableEq, Repr

/-- A JSON-RPC response: `{jsonrpc:"2.0", id, result}` or
`{jsonrpc:"2.0", id, error:{code, message}}`. -/
inductive RpcResponse where
  | result (id : RpcId) (r : RpcResult)
  | error (id : RpcId) (code : Int) (message : String)
deriving DecidableEq, Repr

/-- `success(result)` in `handleRpc`: notifications (absent id) produce no
response object. -/
def rpcSuccess (id? : Option RpcId) (r : RpcResult) : Option RpcResponse :=
  match id? with
  | none => none
  | some i => some (.result i r)

/-- `failure(code, message)` in `handleRpc`: notifications produce no
response object. -/
def rpcFailure (id? : Option RpcId) (code : Int) (msg : String) : Option RpcResponse :=
  match id? with
  | none => none
  | some i => some (.error i code msg)

/-! ## Tool resolution and invocation (`parsers.js`) -/

/-- `findTool({name, toolId})`: look up by id first (only when `toolId` is
truthy), then fall back to exact name match, else `null`.  An absent
`name` matches no tool (`tool.name === undefined` is false). -/
def findTool (tools : List Tool) (name? : Option String) (toolId? : Option String) :
    Option Tool :=
  let byId :=
    if truthyS toolId? then tools.find? (fun t => t.id == toolId?.getD "") else none
  match byId with
  | some t => some t
  | none =>
    match name? with
    | some n => tools.find? (fun t => t.name == n)
    | none => none

/-- `x || y` on optional strings, as used for `tool.invoke.tool || tool.name`
and `tool.invoke.method || 'POST'`. -/
def orFalsy (x : Option String) (y : String) : String :=
  match x with
  | some s => if s = "" then y else s
  | none => y

/-- `callTool(tool, args)` (`parsers.js`).  `fetch` abstracts the outcome of
the outbound HTTP call; the function itself is total — every failure path
is converted into an `isError` result object, never an exception. -/
def callTool (fetch : String → FetchReq → Except String (Nat × String))
    (tool? : Option Tool) (args : String) : CallResult :=
  match tool? with
  | none => { isError := true, content := [⟨"text", "Tool not found."⟩] }
  | some tool =>
    if tool.invoke.type = some "noop" ∨ tool.invoke.type = some "skill" then
      { content :=
          [⟨"text", "Tool " ++ tool.name ++ " is registered but not remotely invokable."⟩]
        metadata := some { toolId := some tool.id } }
    else if tool.invoke.type = some "webmcp" ∧ truthyS tool.invoke.url then
      let url := tool.invoke.url.getD ""
      match fetch url (.webmcp (orFalsy tool.invoke.tool tool.name) args) with
      | .ok (status, text) =>
        { content :=
            [⟨"text", if text = "" then "Upstream " ++ url ++ " returned an empty body."
              else text⟩]
          metadata := some { status := some status, upstream := some url } }
      | .error msg =>
        { isError := true, content := [⟨"text", "Upstream call failed: " ++ msg⟩] }
    else if truthyS tool.invoke.url then
      let url := tool.invoke.url.getD ""
      match fetch url (.generic (orFalsy tool.invoke.method "POST") tool.name args) with
      | .ok (status, text) =>
        { content := [⟨"text", text⟩]
          metadata := some { status := some status, upstream := some url } }
      | .error msg =>
        { isError := true, content := [⟨"text", "Proxy call failed: " ++ msg⟩] }
    else
      { isError := true
        content := [⟨"text", "Unsupported invoke type: " ++ orFalsy tool.invoke.type "unknown"⟩] }

/-! ## The dispatcher `handleRpc` (`parsers.js`) -/

/-- `Number(params.topK || 10)`: an absent `topK` — and `topK: 0`, which is
falsy — default to 10. -/
def topKOf (p : RpcParams) : Nat :=
  match p.topK with
  | some k => if k = 0 then 10 else k
  | none => 10

/-- The text assembled by `completion/complete`:
`[prompt, context, input, messages?.map(m => m.content || '').join(' ')]`
`.filter(Boolean).join(' ')`. -/
def joinCompletion (p : RpcParams) : String :=
  let msgsPart : Option String :=
    p.messages.map (fun ms => String.intercalate " " (ms.map (fun m => m.content.getD "")))
  let parts := ([p.prompt, p.context, p.input, msgsPart].filterMap id).filter (· ≠ "")
  String.intercalate " " parts

/-- The effective `toolId` for `tools/call`:
`params.metadata?.toolId || params.toolId`. -/
def effectiveToolId (p : RpcParams) : Option String :=
  if truthyS p.metadataToolId then p.metadataToolId else p.toolId

/-- The JSON-RPC dispatcher `handleRpc` (`parsers.js`), routing
the `initialize`, `tools/list`, `tools/call`, `completion/complete` methods;
a falsy `method` yields `-32600` and an unknown method `-32601`,
and notifications never produce a response. -/
def handleRpc (env : ProxyEnv) (req : RpcRequest) : Option RpcResponse :=
  match req.method with
  | none => rpcFailure req.id (-32600) "Invalid Request"
  | some m =>
    if m = "" then rpcFailure req.id (-32600) "Invalid Request"
    else if m = "initialize" then
      rpcSuccess req.id (.initResult "2024-11-05" "vectormcp" "0.1.0")
    else if m = "tools/list" then
      let hint := jsTrim (req.params.contextHint.getD "")
      let selected :=
        if hint ≠ "" then (env.search hint (topKOf req.params)).map (fun r => r.tool)
        else env.tools
      rpcSuccess req.id (.toolsList (selected.map toMcpSchema))
    else if m = "tools/call" then
      let tool? := findTool env.tools req.params.name (effectiveToolId req.params)
      rpcSuccess req.id
        (.callResult (callTool env.fetch tool? (req.params.arguments.getD "{}")))
    else if m = "completion/complete" then
      let text := joinCompletion req.params
      let k := topKOf req.params
      let candidates :=
        if text ≠ "" then env.search text k
        else (env.tools.take k).map (fun t => { score := 0, tool := t })
      rpcSuccess req.id
        (.completion (candidates.map (fun r => (toMcpSchema r.tool, r.score))))
    else rpcFailure req.id (-32601) ("Method not found: " ++ m)

/-! ## REST `/mcp/query` session re-ranking (`server.js`)

`matches.sort((a, b) => b.score - a.score)` is a stable sort (guaranteed by
ECMAScript) in descending score order; it is modelled by Mathlib's stable
`List.insertionSort` with the relation "score not below". -/

/-- The boost applied per match when a `sessionId` is supplied:
`score * 1.3` for a tool whose id is in the session's previous tool-id
list, unchanged otherwise (`server.js`, `/mcp/query`). -/
def boostScore (hist : List String) (m : SearchMatch) : SearchMatch :=
  if m.tool.id ∈ hist then { m with score := m.score * 1.3 } else m

/-- The stable descending re-sort `(a, b) => b.score - a.score`. -/
def sortByScoreDesc (ms : List SearchMatch) : List SearchMatch :=
  ms.insertionSort (fun a b => b.score ≤ a.score)

/-- The session branch of `/mcp/query`: boost matches whose tool is in the
session history, then re-sort descending. -/
def sessionRerank (hist : List String) (ms : List SearchMatch) : List SearchMatch :=
  sortByScoreDesc (ms.map (boostScore hist))

/-- The session-history update `matches.map(m => m.tool.id).slice(-20)`:
the last 20 tool ids of the re-ranked result list. -/
def updateSessionHistory (ms : List SearchMatch) : List String :=
  let ids := ms.map (fun m => m.tool.id)
  ids.drop (ids.length - 20)

/-- The rank (0-based position) of the first match carrying the given tool
id; the list length if the id does not occur. -/
def rankOf (tid : String) (ms : List SearchMatch) : Nat :=
  ms.findIdx (fun m => m.tool.id == tid)

/-! ## Stdio transport framing (`parseStdioMessages`, `parsers.js`)

The buffer is the decoded `utf8` string accumulated from `process.stdin`,
modelled as a `List Char` of UTF-16 code units.  The JSON parse
(`JSON.parse` under `try/catch`) enters as a parameter
`jparse : List Char → Option μ`, `none` standing for a parse failure.

The `while` loop consumes at least one code unit per iteration (or
returns), so a fuel of `buffer.length + 1` makes the fuelled recursion
exhaustive; `parseStdioMessages` instantiates it that way. -/

/-- `'Content-Length:'` — the prefix tested by `buffer.startsWith`. -/
def clHeadChars : List Char :=
  ['C', 'o', 'n', 't', 'e', 'n', 't', '-', 'L', 'e', 'n', 'g', 't', 'h', ':']

/-- The lowercase pattern of the `/Content-Length:\s*(\d+)/i` regex literal. -/
def clLowerChars : List Char :=
  ['c', 'o', 'n', 't', 'e', 'n', 't', '-', 'l', 'e', 'n', 'g', 't', 'h', ':']

/-- `'\r\n\r\n'` — the header/body separator. -/
def crlfcrlf : List Char := ['\r', '\n', '\r', '\n']

/-- `String.prototype.indexOf` for a single character (`none` for `-1`). -/
def indexOfChar (c : Char) : List Char → Option Nat
  | [] => none
  | x :: xs => if x = c then some 0 else (indexOfChar c xs).map (· + 1)

/-- `String.prototype.indexOf` for a substring (`none` for `-1`). -/
def indexOfSub (needle : List Char) : List Char → Option Nat
  | [] => if needle = [] then some 0 else none
  | c :: rest =>
    if needle.isPrefixOf (c :: rest) then some 0
    else (indexOfSub needle rest).map (· + 1)

/-- Case-insensitive literal match: strip `pat` (given lowercase) from the
front of `s`, comparing through `Char.toLower`; `none` if it fails. -/
def dropLowerPre : List Char → List Char → Option (List Char)
  | [], s => some s
  | _ :: _, [] => none
  | p :: ps, c :: cs => if c.toLower = p then dropLowerPre ps cs else none

/-- Decimal digits to a number, `Number(lengthMatch[1])`. -/
def digitsToNat (ds : List Char) : Nat :=
  ds.foldl (fun a c => a * 10 + (c.toNat - 48)) 0

/-- Try the regex `/Content-Length:\s*(\d+)/i` anchored at the front of
`s`: the case-insensitive literal, then greedy `\s*`, then at least one
digit.  Returns the captured number. -/
def matchCLAt (s : List Char) : Option Nat :=
  match dropLowerPre clLowerChars s with
  | none => none
  | some rest =>
    let ds := (rest.dropWhile isJsSpace).takeWhile Char.isDigit
    if ds = [] then none else some (digitsToNat ds)

/-- `header.match(/Content-Length:\s*(\d+)/i)`: first position at which the
pattern matches. -/
def findCL : List Char → Option Nat
  | [] => none
  | c :: rest =>
    match matchCLAt (c :: rest) with
    | some n => some n
    | none => findCL rest

/-- The extraction loop of `parseStdioMessages`, fuelled.  Returns the
parsed messages in arrival order and the remaining buffer. -/
def parseStdioFuel (jparse : List Char → Option μ) :
    Nat → List Char → List μ × List Char
  | 0, buf => ([], buf)
  | fuel + 1, buf =>
    if buf.length = 0 then ([], buf)
    else if clHeadChars.isPrefixOf buf then
      match indexOfSub crlfcrlf buf with
      | none => ([], buf)
      | some headerEnd =>
        match findCL (buf.take headerEnd) with
        | none => ([], [])
        | some len =>
          let bodyStart := headerEnd + 4
          if buf.length < bodyStart + len then ([], buf)
          else
            let body := (buf.drop bodyStart).take len
            let rest := buf.drop (bodyStart + len)
            let next := parseStdioFuel jparse fuel rest
            match jparse body with
            | some m => (m :: next.1, next.2)
            | none => next
    else
      match indexOfChar '\n' buf with
      | none => ([], buf)
      | some nl =>
        let line := trimChars (buf.take nl)
        let rest := buf.drop (nl + 1)
        let next := parseStdioFuel jparse fuel rest
        if line.length = 0 then next
        else
          match jparse line with
          | some m => (m :: next.1, next.2)
          | none => next

/-- `parseStdioMessages(state)` (`parsers.js`): run the loop on the whole
buffer. -/
def parseStdioMessages (jparse : List Char → Option μ) (buf : List Char) :
    List μ × List Char :=
  parseStdioFuel jparse (buf.length + 1) buf

/-- One `data` event of `startStdioTransport`: append the chunk to the
buffered input, then extract messages. -/
def stdioFeed (jparse : List Char → Option μ) (buffer chunk : List Char) :
    List μ × List Char :=
  parseStdioMessages jparse (buffer ++ chunk)

/-! ### Byte-faithful reference extraction

Modelled from the spec: `core.js` aside, §4.5/§6 of the specification
declare the `Content-Length` value to be the **byte** count of the UTF-8
body (as `writeStdioMessage` indeed computes via `Buffer.byteLength`), so
the reference extraction below waits for, slices and consumes the declared
number of UTF-8 *bytes* rather than UTF-16 code units.  It exists to be
compared against `parseStdioMessages` above. -/

/-- UTF-8 width in bytes of one (BMP) character. -/
def utf8Width (c : Char) : Nat :=
  if c.toNat < 0x80 then 1 else if c.toNat < 0x800 then 2
  else if c.toNat < 0x10000 then 3 else 4

/-- UTF-8 byte length of a character list. -/
def utf8Len (l : List Char) : Nat :=
  (l.map utf8Width).sum

/-- Take the characters making up the first `n` UTF-8 bytes. -/
def takeUtf8 : Nat → List Char → List Char
  | _, [] => []
  | n, c :: cs => if utf8Width c ≤ n then c :: takeUtf8 (n - utf8Width c) cs else []

/-- Drop the characters making up the first `n` UTF-8 bytes. -/
def dropUtf8 : Nat → List Char → List Char
  | _, [] => []
  | n, c :: cs => if utf8Width c ≤ n then dropUtf8 (n - utf8Width c) cs else c :: cs

/-- Modelled from the spec: the byte-counting variant of the extraction
loop (see the section comment above).  Only the length test, the body
slice and the consumption differ from `parseStdioFuel`. -/
def parseStdioBytesFuel (jparse : List Char → Option μ) :
    Nat → List Char → List μ × List Char
  | 0, buf => ([], buf)
  | fuel + 1, buf =>
    if buf.length = 0 then ([], buf)
    else if clHeadChars.isPrefixOf buf then
      match indexOfSub crlfcrlf buf with
      | none => ([], buf)
      | some headerEnd =>
        match findCL (buf.take headerEnd) with
        | none => ([], [])
        | some len =>
          let bodyStart := headerEnd + 4
          let tail := buf.drop bodyStart
          if utf8Len tail < len then ([], buf)
          else
            let body := takeUtf8 len tail
            let rest := dropUtf8 len tail
            let next := parseStdioBytesFuel jparse fuel rest
            match jparse body with
            | some m => (m :: next.1, next.2)
            | none => next
    else
      match indexOfChar '\n' buf with
      | none => ([], buf)
      | some nl =>
        let line := trimChars (buf.take nl)
        let rest := buf.drop (nl + 1)
        let next := parseStdioBytesFuel jparse fuel rest
        if line.length = 0 then next
        else
          match jparse line with
          | some m => (m :: next.1, next.2)
          | none => next

/-- Modelled from the spec: whole-buffer run of the byte-counting
reference extraction. -/
def parseStdioBytes (jparse : List Char → Option μ) (buf : List Char) :
    List μ × List Char :=
  parseStdioBytesFuel jparse (buf.length + 1) buf

/-! ## SSE transport (`startSseTransport`, `parsers.js`) -/

/-- The `POST /mcp/sse` handler: dispatch the request, wrap the stringified
response in a `message` event, write that payload to every registered
subscriber, and answer the POST with the response itself.
`stringify` abstracts `JSON.stringify` on the (possibly `null`) response;
subscribers are identified by an abstract type `γ`. -/
def ssePostHandler (handle : RpcRequest → Option RpcResponse)
    (stringify : Option RpcResponse → String)
    (clients : List γ) (body : RpcRequest) :
    List (γ × String) × Option RpcResponse :=
  let response := handle body
  let payload := "event: message\ndata: " ++ stringify response ++ "\n\n"
  (clients.map (fun c => (c, payload)), response)

/-! ## Activity tracking (`analytics.js`) -/

/-- One activity event `{type, message, timestamp}`. -/
structure ActivityEvent where
  type : String
  message : String
  timestamp : String
deriving DecidableEq, Repr

/-- `ActivityTracker.recordEvent`: `unshift` the event, then
`slice(0, 50)`. -/
def recordEvent (activity : List ActivityEvent) (e : ActivityEvent) :
    List ActivityEvent :=
  (e :: activity).take 50

/-- `ActivityTracker.getActivity(limit)`: `activity.slice(0, limit)`. -/
def getActivity (activity : List ActivityEvent) (limit : Nat) : List ActivityEvent :=
  activity.take limit

/-- A sequence of `recordEvent` calls folded over a starting list. -/
def recordSeq (s0 : List ActivityEvent) (es : List ActivityEvent) : List ActivityEvent :=
  es.foldl recordEvent s0

/-! ## Embedder (`core.js`, absent from the sources)

Modelled from the spec: `core.js` (class `LocalEmbedder`) is not among the
source files — only its tests and callers are — so `embed` is
reconstructed from §4.1 of the specification: lowercase, tokenize on runs
of `[a-z0-9_]`, hash each token into one of `dim` buckets, count, then
L2-normalize (a zero norm is treated as 1).  The cryptographic token hash
(first two bytes of the digest, big-endian) is abstracted as `tokenHash`,
and the floating-point square root as `sqrtApprox`; the claimed
properties hold for every choice of both. -/

/-- A character of a `[a-z0-9_]` token run (after lowercasing). -/
def isTokChar (c : Char) : Bool :=
  ('a' ≤ c && c ≤ 'z') || c.isDigit || c == '_'

/-- Split into maximal runs of token characters. -/
def tokenize : List Char → List (List Char)
  | [] => []
  | c :: cs =>
    if isTokChar c then (c :: cs.takeWhile isTokChar) :: tokenize (cs.dropWhile isTokChar)
    else tokenize cs
termination_by l => l.length
decreasing_by
  · simpa [Nat.lt_succ_iff] using List.Sublist.length_le (List.dropWhile_sublist isTokChar)
  · simp

/-- Increment bucket `i` of a count vector. -/
def bumpAt (v : List Rat) (i : Nat) : List Rat :=
  v.set i (v.getD i 0 + 1)

/-- Sum of squares of the components. -/
def sumSq (v : List Rat) : Rat :=
  (v.map (fun x => x * x)).sum

/-- Modelled from the spec: `LocalEmbedder.embed(text) -> vector of length
dim` (see the section comment above). -/
def embed (tokenHash : List Char → Nat) (sqrtApprox : Rat → Rat)
    (text : String) (dim : Nat) : List Rat :=
  let tokens := tokenize (text.data.map Char.toLower)
  let counts := tokens.foldl (fun acc tok => bumpAt acc (tokenHash tok % dim))
    (List.replicate dim 0)
  let norm := sqrtApprox (sumSq counts)
  let d := if norm = 0 then 1 else norm
  counts.map (fun x => x / d)

/-! ## Helper lemmas -/

/-- A `foldl` of `bumpAt` over any token list preserves the vector length. -/
theorem bumpFold_length (tokenHash : List Char → Nat) (dim : Nat) :
    ∀ (tokens : List (List Char)) (acc : List Rat),
      (tokens.foldl (fun acc tok => bumpAt acc (tokenHash tok % dim)) acc).length =
        acc.length
  | [], _ => rfl
  | _ :: ts, acc => by
    rw [List.foldl_cons, bumpFold_length tokenHash dim ts]
    simp [bumpAt]

/-- `tokenize` of the empty character list. -/
theorem tokenize_nil : tokenize [] = [] := by
  rw [tokenize]

/-! ## C9 — embedder dimension and empty input -/

/-- C9: for every input text and dimension `dim`, `embed` returns a vector
of exactly `dim` elements, and `embed` applied to the empty string yields
the all-zero vector (for every choice of the token hash and of the
square-root approximation). -/
theorem embed_dim_and_empty (tokenHash : List Char → Nat) (sqrtApprox : Rat → Rat)
    (text : String) (dim : Nat) :
    (embed tokenHash sqrtApprox text dim).length = dim
    ∧ embed tokenHash sqrtApprox "" dim = List.replicate dim 0 := by
  constructor
  · simp [embed, bumpFold_length]
  · have hdata : ("" : String).data = [] := rfl
    simp [embed, hdata, tokenize_nil, List.map_replicate]

/-! ## C10 — activity log bounded and newest-first -/

/-- C10: after any sequence of `recordEvent` calls ending in an event `e`,
the stored activity list has at most 50 events with `e` (the most recent)
first; `recordEvent` is exactly prepend-then-truncate-to-50, and
`getActivity limit` returns the first `min limit 50` of them at most. -/
theorem activity_capped_newest_first (s0 : List ActivityEvent)
    (es : List ActivityEvent) (e : ActivityEvent) (limit : Nat) :
    recordEvent (recordSeq s0 es) e = ((e :: recordSeq s0 es).take 50)
    ∧ recordSeq s0 (es ++ [e]) = recordEvent (recordSeq s0 es) e
    ∧ (recordSeq s0 (es ++ [e])).length ≤ 50
    ∧ (recordSeq s0 (es ++ [e])).head? = some e
    ∧ getActivity (recordSeq s0 (es ++ [e])) limit =
        (recordSeq s0 (es ++ [e])).take limit
    ∧ (getActivity (recordSeq s0 (es ++ [e])) limit).length ≤ min limit 50 := by
  have hseq : recordSeq s0 (es ++ [e]) = recordEvent (recordSeq s0 es) e := by
    simp [recordSeq, List.foldl_append]
  refine ⟨rfl, hseq, ?_, ?_, rfl, ?_⟩
  · rw [hseq, recordEvent]
    simp
  · rw [hseq]
    rfl
  · rw [hseq, getActivity, recordEvent]
    simp [List.length_take]

/-! ## C1 — unknown methods -/

/-- C1: a decoded request whose method is none of `initialize`,
`tools/list`, `tools/call`, `completion/complete` gets a response with
error code `-32601` echoing its id when the id is present, and no response
at all when the id is absent. -/
theorem unknownMethod_not_found (env : ProxyEnv) (req : RpcRequest) (m : String)
    (hm : req.method = some m) (hne : m ≠ "")
    (hunk : m ∉ (["initialize", "tools/list", "tools/call", "completion/complete"] :
      List String)) :
    handleRpc env req =
      match req.id with
      | some i => some (.error i (-32601) ("Method not found: " ++ m))
      | none => none := by
  simp only [List.mem_cons, List.mem_singleton, not_or] at hunk
  obtain ⟨h1, h2, h3, h4, -⟩ := hunk
  rw [handleRpc]
  simp only [hm]
  rw [if_neg hne, if_neg h1, if_neg h2, if_neg h3, if_neg h4]
  cases req.id <;> rfl

/-- Witness for C1 at a concrete unknown method, with and without an id. -/
theorem unknownMethod_not_found_witness :
    handleRpc ⟨[], fun _ _ => [], fun _ _ => .error ""⟩
        { id := some (.num 1), method := some "resources/list" } =
      some (.error (.num 1) (-32601) "Method not found: resources/list")
    ∧ handleRpc ⟨[], fun _ _ => [], fun _ _ => .error ""⟩
        { id := none, method := some "resources/list" } = none := by
  constructor
  · exact unknownMethod_not_found _ _ "resources/list" rfl (by decide) (by decide)
  · exact unknownMethod_not_found _ _ "resources/list" rfl (by decide) (by decide)

/-! ## C3 — `tools/list` with and without a context hint -/

/-- C3: a `tools/list` request with a non-empty (trimmed) `contextHint`
returns exactly the top-`topK` (default 10) semantic search matches mapped
to tool schemas; without a hint it returns every registered tool's
schema. -/
theorem toolsList_contextHint (env : ProxyEnv) (i : RpcId) (p : RpcParams) :
    (jsTrim (p.contextHint.getD "") ≠ "" →
      handleRpc env { id := some i, method := some "tools/list", params := p } =
        some (.result i (.toolsList
          ((env.search (jsTrim (p.contextHint.getD "")) (topKOf p)).map
            (fun r => toMcpSchema r.tool)))))
    ∧ (jsTrim (p.contextHint.getD "") = "" →
      handleRpc env { id := some i, method := some "tools/list", params := p } =
        some (.result i (.toolsList (env.tools.map toMcpSchema))))
    ∧ (p.topK = none → topKOf p = 10) := by
  refine ⟨fun hhint => ?_, fun hhint => ?_, fun hk => ?_⟩
  · simp [handleRpc, rpcSuccess, hhint]
  · simp [handleRpc, rpcSuccess, hhint]
  · simp [topKOf, hk]

/-- Witness for C3: a hinted request selects the search results, an
unhinted one lists every tool, and the default `topK` is 10. -/
theorem toolsList_contextHint_witness :
    handleRpc ⟨[{ id := "t0" }], fun _ _ => [⟨1, { id := "t1" }⟩], fun _ _ => .error ""⟩
        { id := some (.num 1), method := some "tools/list"
          params := { contextHint := some " tasks " } } =
      some (.result (.num 1) (.toolsList [toMcpSchema { id := "t1" }]))
    ∧ handleRpc ⟨[{ id := "t0" }], fun _ _ => [⟨1, { id := "t1" }⟩], fun _ _ => .error ""⟩
        { id := some (.num 1), method := some "tools/list" } =
      some (.result (.num 1) (.toolsList [toMcpSchema { id := "t0" }]))
    ∧ topKOf {} = 10 := by
  refine ⟨?_, ?_, ?_⟩
  · exact (toolsList_contextHint _ _ _).1 (by decide)
  · exact (toolsList_contextHint _ _ _).2.1 (by decide)
  · exact (toolsList_contextHint ⟨[], fun _ _ => [], fun _ _ => .error ""⟩ .null {}).2.2 rfl

/-! ## C4 — `completion/complete` -/

/-- C4: `completion/complete` concatenates the present ones among
`prompt`, `context`, `input` and the flattened message contents; a
non-empty concatenation yields the `topK` (default 10) search results as
schema/score pairs, an empty one yields the first `topK` registered tools
with score 0. -/
theorem completionComplete_text (env : ProxyEnv) (i : RpcId) (p : RpcParams) :
    (joinCompletion p ≠ "" →
      handleRpc env { id := some i, method := some "completion/complete", params := p } =
        some (.result i (.completion
          ((env.search (joinCompletion p) (topKOf p)).map
            (fun r => (toMcpSchema r.tool, r.score))))))
    ∧ (joinCompletion p = "" →
      handleRpc env { id := some i, method := some "completion/complete", params := p } =
        some (.result i (.completion
          ((env.tools.take (topKOf p)).map (fun t => (toMcpSchema t, (0 : Rat)))))))
    ∧ (p.topK = none → topKOf p = 10) := by
  refine ⟨fun htext => ?_, fun htext => ?_, fun hk => ?_⟩
  · simp [handleRpc, rpcSuccess, htext]
  · simp [handleRpc, rpcSuccess, htext]
    congr 1
  · simp [topKOf, hk]

/-- Witness for C4: a prompt-bearing request ranks search results, an
empty request falls back to the tool prefix with score 0. -/
theorem completionComplete_text_witness :
    handleRpc ⟨[{ id := "t0" }], fun _ _ => [⟨1 / 2, { id := "t1" }⟩], fun _ _ => .error ""⟩
        { id := some (.num 2), method := some "completion/complete"
          params := { prompt := some "manage", input := some "tasks" } } =
      some (.result (.num 2) (.completion [(toMcpSchema { id := "t1" }, 1 / 2)]))
    ∧ handleRpc ⟨[{ id := "t0" }], fun _ _ => [⟨1 / 2, { id := "t1" }⟩], fun _ _ => .error ""⟩
        { id := some (.num 2), method := some "completion/complete"
          params := { messages := some [{ content := some "" }] } } =
      some (.result (.num 2) (.completion [(toMcpSchema { id := "t0" }, 0)])) := by
  constructor
  · exact (completionComplete_text _ _ _).1 (by decide)
  · exact (completionComplete_text _ _ _).2.1 (by decide)

/-! ## C2 — `tools/call` resolution and unresolvable tools -/

/-- C2: `tools/call` resolves by id first and falls back to exact name
match; an unresolvable tool produces an ordinary result object with
`isError: true` and a descriptive content block — never a protocol-level
error response (`callTool` and `handleRpc` are total functions, so no
exception can escape the dispatcher). -/
theorem toolsCall_resolution (env : ProxyEnv) :
    (∀ (name? : Option String) (tid : String) (t : Tool),
      tid ≠ "" → env.tools.find? (fun t => t.id == tid) = some t →
      findTool env.tools name? (some tid) = some t)
    ∧ (∀ (name? toolId? : Option String),
      truthyS toolId? = false ∨ env.tools.find? (fun t => t.id == toolId?.getD "") = none →
      findTool env.tools name? toolId? =
        (match name? with
         | some n => env.tools.find? (fun t => t.name == n)
         | none => none))
    ∧ (∀ (i : RpcId) (p : RpcParams),
      findTool env.tools p.name (effectiveToolId p) = none →
      handleRpc env { id := some i, method := some "tools/call", params := p } =
        some (.result i (.callResult
          { isError := true, content := [⟨"text", "Tool not found."⟩] })))
    ∧ (∀ (p : RpcParams),
      handleRpc env { id := none, method := some "tools/call", params := p } = none) := by
  refine ⟨fun name? tid t htid hfind => ?_, fun name? toolId? hmiss => ?_,
    fun i p hnone => ?_, fun p => ?_⟩
  · simp [findTool, truthyS, htid, hfind]
  · rcases hmiss with hfalsy | hnone
    · simp [findTool, hfalsy]
    · simp [findTool, hnone]
  · simp [handleRpc, rpcSuccess, hnone, callTool]
  · simp [handleRpc, rpcSuccess]

/-- Witness for C2: id lookup wins over name lookup, falsy id falls back
to name lookup, a missing tool returns the `isError` result, and the same
request as a notification returns nothing. -/
theorem toolsCall_resolution_witness :
    findTool [{ id := "i1", name := "other" }, { id := "i2", name := "n" }]
        (some "n") (some "i1") = some { id := "i1", name := "other" }
    ∧ findTool [{ id := "i1", name := "other" }, { id := "i2", name := "n" }]
        (some "n") (some "") = some { id := "i2", name := "n" }
    ∧ handleRpc ⟨[], fun _ _ => [], fun _ _ => .error ""⟩
        { id := some (.str "q"), method := some "tools/call"
          params := { name := some "missing" } } =
      some (.result (.str "q") (.callResult
        { isError := true, content := [⟨"text", "Tool not found."⟩] }))
    ∧ handleRpc ⟨[], fun _ _ => [], fun _ _ => .error ""⟩
        { id := none, method := some "tools/call"
          params := { name := some "missing" } } = none := by
  refine ⟨?_, ?_, ?_, ?_⟩
  · exact (toolsCall_resolution
      ⟨[{ id := "i1", name := "other" }, { id := "i2", name := "n" }],
        fun _ _ => [], fun _ _ => .error ""⟩).1 (some "n") "i1" _ (by decide) (by decide)
  · exact (toolsCall_resolution
      ⟨[{ id := "i1", name := "other" }, { id := "i2", name := "n" }],
        fun _ _ => [], fun _ _ => .error ""⟩).2.1 (some "n") (some "") (.inl (by decide))
  · exact (toolsCall_resolution _).2.2.1 (.str "q") _ (by decide)
  · exact (toolsCall_resolution _).2.2.2 _

/-! ## C8 — SSE POST broadcast -/

/-- C8: the SSE POST endpoint dispatches the request, writes the same
`message` event (wrapping the stringified dispatcher response) to every
registered subscriber, and returns that very response as the HTTP reply. -/
theorem ssePost_broadcast (env : ProxyEnv) (stringify : Option RpcResponse → String)
    (clients : List Nat) (body : RpcRequest) :
    ssePostHandler (handleRpc env) stringify clients body =
      (clients.map (fun c =>
        (c, "event: message\ndata: " ++ stringify (handleRpc env body) ++ "\n\n")),
        handleRpc env body)
    ∧ ∀ c ∈ clients,
      (c, "event: message\ndata: " ++ stringify (handleRpc env body) ++ "\n\n") ∈
        (ssePostHandler (handleRpc env) stringify clients body).1 := by
  refine ⟨rfl, fun c hc => ?_⟩
  exact List.mem_map_of_mem _ hc

/-- Witness for C8 with two subscribers and a concrete request. -/
theorem ssePost_broadcast_witness :
    ssePostHandler (handleRpc ⟨[], fun _ _ => [], fun _ _ => .error ""⟩)
        (fun _ => "null") [4, 7] { id := none, method := some "initialize" } =
      ([(4, "event: message\ndata: null\n\n"), (7, "event: message\ndata: null\n\n")], none)
    ∧ (4, "event: message\ndata: null\n\n") ∈
        (ssePostHandler (handleRpc ⟨[], fun _ _ => [], fun _ _ => .error ""⟩)
          (fun _ => "null") [4, 7] { id := none, method := some "initialize" }).1 := by
  constructor
  · exact (ssePost_broadcast _ _ _ _).1
  · exact (ssePost_broadcast ⟨[], fun _ _ => [], fun _ _ => .error ""⟩
      (fun _ => "null") [4, 7] { id := none, method := some "initialize" }).2 4 (by decide)

/-! ## C5 — session boost never demotes a history tool -/

/-- `findIdx` over an append: the left index if the left part hits,
otherwise the left length plus the right index. -/
theorem findIdx_append_split {α : Type} (p : α → Bool) (xs ys : List α) :
    (xs ++ ys).findIdx p =
      if xs.findIdx p < xs.length then xs.findIdx p
      else xs.length + ys.findIdx p := by
  induction xs with
  | nil => simp
  | cons x xs ih =>
    cases hx : p x
    · simp only [List.cons_append, List.findIdx_cons, hx, cond_false, ih, List.length_cons]
      split_ifs <;> omega
    · simp [List.findIdx_cons, hx]

/-- `takeWhile` of a predicate failing everywhere is empty. -/
theorem takeWhile_nil_of_forall {α : Type} (q : α → Bool) (l : List α)
    (h : ∀ x ∈ l, q x = false) : l.takeWhile q = [] := by
  cases l with
  | nil => rfl
  | cons x xs => simp [List.takeWhile_cons, h x (by simp)]

/-- The boost never changes which tool a match carries. -/
theorem boostScore_tool (hist : List String) (m : SearchMatch) :
    (boostScore hist m).tool = m.tool := by
  unfold boostScore
  split <;> rfl

/-- A match with nonnegative score bounded by `c` stays below the boosted
bound `c * 1.3` after `boostScore`. -/
theorem boostScore_score_le (hist : List String) (m : SearchMatch) (c : Rat)
    (h0 : 0 ≤ m.score) (hle : m.score ≤ c) :
    (boostScore hist m).score ≤ c * 1.3 := by
  unfold boostScore
  split
  · simpa using mul_le_mul_of_nonneg_right hle (by norm_num : (0 : Rat) ≤ 1.3)
  · exact le_trans hle (le_mul_of_one_le_right (le_trans h0 hle) (by norm_num))

/-- Core of C5: over a descending, nonnegative raw match list, boosting a
history tool and stably re-sorting never moves it to a later position. -/
theorem sessionRerank_rank_le (hist : List String) :
    ∀ ms : List SearchMatch,
      List.Sorted (fun x y : SearchMatch => y.score ≤ x.score) ms →
      (∀ m ∈ ms, 0 ≤ m.score) →
      ∀ a ∈ ms, a.tool.id ∈ hist →
      rankOf a.tool.id (sessionRerank hist ms) ≤ rankOf a.tool.id ms := by
  intro ms
  induction ms with
  | nil =>
    intro _ _ a ha
    exact absurd ha (List.not_mem_nil a)
  | cons h t ih =>
    intro hsorted hnonneg a ha haHist
    rw [List.sorted_cons] at hsorted
    obtain ⟨hht, hsorted_t⟩ := hsorted
    have hS : sessionRerank hist (h :: t) =
        List.orderedInsert (fun x y : SearchMatch => y.score ≤ x.score)
          (boostScore hist h) (sortByScoreDesc (t.map (boostScore hist))) := by
      simp [sessionRerank, sortByScoreDesc, List.insertionSort]
    by_cases hid : h.tool.id = a.tool.id
    · -- the head is the history tool: it is re-inserted at the very front
      have hbh : (boostScore hist h).score = h.score * 1.3 := by
        simp [boostScore, hid, haHist]
      have hall : ∀ x ∈ sortByScoreDesc (t.map (boostScore hist)),
          x.score ≤ (boostScore hist h).score := by
        intro x hx
        have hx' : x ∈ t.map (boostScore hist) :=
          (List.perm_insertionSort _ _).mem_iff.mp hx
        obtain ⟨y, hy, rfl⟩ := List.mem_map.mp hx'
        rw [hbh]
        exact boostScore_score_le hist y h.score
          (hnonneg y (List.mem_cons_of_mem h hy)) (hht y hy)
      rw [hS, List.orderedInsert_eq_take_drop]
      rw [takeWhile_nil_of_forall _ _ (fun x hx => by simp [hall x hx])]
      have hpBh : (fun m : SearchMatch => m.tool.id == a.tool.id) (boostScore hist h)
          = true := by
        simp [boostScore_tool, hid]
      simp [rankOf, List.findIdx_cons, hpBh]
    · -- the head is another tool: its re-insertion shifts the history
      -- tool by at most the one slot the head contributed on the right
      have hpH : (h.tool.id == a.tool.id) = false := by
        simp [hid]
      have ha_t : a ∈ t := by
        rcases List.mem_cons.mp ha with rfl | h'
        · exact absurd rfl hid
        · exact h'
      have iha := ih hsorted_t (fun m hm => hnonneg m (List.mem_cons_of_mem h hm))
        a ha_t haHist
      have hpBh : ((boostScore hist h).tool.id == a.tool.id) = false := by
        simp [boostScore_tool, hid]
      simp only [rankOf] at iha ⊢
      rw [hS, List.orderedInsert_eq_take_drop]
      have hsplit :
          (sortByScoreDesc (t.map (boostScore hist))).takeWhile
              (fun b => decide ¬(b.score ≤ (boostScore hist h).score)) ++
            (sortByScoreDesc (t.map (boostScore hist))).dropWhile
              (fun b => decide ¬(b.score ≤ (boostScore hist h).score)) =
          sortByScoreDesc (t.map (boostScore hist)) :=
        List.takeWhile_append_dropWhile _ _
      rw [show sessionRerank hist t = sortByScoreDesc (t.map (boostScore hist)) from rfl]
        at iha
      rw [← hsplit, findIdx_append_split] at iha
      rw [findIdx_append_split]
      simp only [List.findIdx_cons, hpH, hpBh, cond_false]
      split_ifs at iha ⊢ with hc <;> omega

/-- C5: in the REST `/mcp/query` path with a `sessionId`, each match whose
tool id is in the session's previous tool-id list gets its score
multiplied by exactly 1.3 before the stable descending re-sort; hence for
two matches of equal raw score of which exactly one is a history tool,
the history tool ranks at or above the position it holds without a
`sessionId`.  The hypotheses — raw matches sorted descending with
nonnegative scores — hold for every `index.search` output, whose scores
are cosines of componentwise-nonnegative count vectors sorted descending
(spec §4.2). -/
theorem sessionBoost_history_rank (hist : List String) (ms : List SearchMatch)
    (hsorted : List.Sorted (fun x y : SearchMatch => y.score ≤ x.score) ms)
    (hnonneg : ∀ m ∈ ms, 0 ≤ m.score)
    (a : SearchMatch) (ha : a ∈ ms) (haHist : a.tool.id ∈ hist)
    (b : SearchMatch) (hb : b ∈ ms) (hbHist : b.tool.id ∉ hist)
    (hscores : b.score = a.score) :
    (∀ m, m.tool.id ∈ hist → (boostScore hist m).score = m.score * 1.3)
    ∧ (∀ m, m.tool.id ∉ hist → boostScore hist m = m)
    ∧ sessionRerank hist ms = sortByScoreDesc (ms.map (boostScore hist))
    ∧ rankOf a.tool.id (sessionRerank hist ms) ≤ rankOf a.tool.id ms := by
  refine ⟨fun m hm => ?_, fun m hm => ?_, rfl, ?_⟩
  · simp [boostScore, hm]
  · simp [boostScore, hm]
  · exact sessionRerank_rank_le hist ms hsorted hnonneg a ha haHist

/-- Witness for C5: two matches of equal score 1; the history tool sits
second without a session and first with one. -/
theorem sessionBoost_history_rank_witness :
    (boostScore ["a"] ⟨1, { id := "a" }⟩).score = 1 * 1.3
    ∧ boostScore ["a"] ⟨1, { id := "b" }⟩ = ⟨1, { id := "b" }⟩
    ∧ rankOf "a" (sessionRerank ["a"] [⟨1, { id := "b" }⟩, ⟨1, { id := "a" }⟩]) ≤
        rankOf "a" [⟨1, { id := "b" }⟩, ⟨1, { id := "a" }⟩] := by
  have h := sessionBoost_history_rank ["a"]
    [⟨1, { id := "b" }⟩, ⟨1, { id := "a" }⟩]
    (by simp [List.sorted_cons])
    (by
      intro m hm
      rcases List.mem_cons.mp hm with rfl | hm
      · norm_num
      · rcases List.mem_cons.mp hm with rfl | hm
        · norm_num
        · exact absurd hm (List.not_mem_nil m))
    ⟨1, { id := "a" }⟩ (by simp) (by simp)
    ⟨1, { id := "b" }⟩ (by simp) (by simp) rfl
  exact ⟨h.1 ⟨1, { id := "a" }⟩ (by simp), h.2.1 ⟨1, { id := "b" }⟩ (by simp), h.2.2.2⟩

/-! ## C6 / C7 — stdio framing -/

/-- A list is a `isPrefixOf` anything it is appended to. -/
theorem isPrefixOf_append_self {α : Type} [BEq α] [LawfulBEq α]
    (l r : List α) : l.isPrefixOf (l ++ r) = true := by
  induction l with
  | nil => simp [List.isPrefixOf]
  | cons x xs ih => simp [List.isPrefixOf, ih]

/-- The extraction loop leaves an empty buffer untouched, whatever the
fuel. -/
theorem parseStdioFuel_nil (jparse : List Char → Option μ) (fuel : Nat) :
    parseStdioFuel jparse fuel [] = ([], []) := by
  cases fuel <;> rfl

/-- `indexOf('\r\n\r\n')` finds the separator right after any prefix free
of carriage returns. -/
theorem indexOfSub_crlfcrlf (pre post : List Char) (hpre : '\r' ∉ pre) :
    indexOfSub crlfcrlf (pre ++ crlfcrlf ++ post) = some pre.length := by
  induction pre with
  | nil =>
    simp only [List.nil_append]
    rw [show crlfcrlf ++ post = '\r' :: ('\n' :: '\r' :: '\n' :: post) from rfl]
    rw [indexOfSub]
    rw [show ('\r' :: ('\n' :: '\r' :: '\n' :: post)) = crlfcrlf ++ post from rfl]
    rw [if_pos (isPrefixOf_append_self crlfcrlf post)]
    rfl
  | cons c pre ih =>
    have hc : c ≠ '\r' := fun hcr => hpre (hcr ▸ List.mem_cons_self c pre)
    have hpre' : '\r' ∉ pre := fun hm => hpre (List.mem_cons_of_mem c hm)
    rw [List.cons_append, List.cons_append, indexOfSub]
    rw [if_neg ?_, ih hpre']
    · rfl
    · intro hpref
      have : crlfcrlf.isPrefixOf (c :: (pre ++ crlfcrlf ++ post)) = true := hpref
      rw [show crlfcrlf = '\r' :: ['\n', '\r', '\n'] from rfl, List.isPrefixOf] at this
      simp only [Bool.and_eq_true, beq_iff_eq] at this
      exact hc this.1.symm

/-- Digits are not JavaScript whitespace. -/
theorem isJsSpace_of_digit {c : Char} (h : c.isDigit = true) :
    isJsSpace c = false := by
  rw [isJsSpace]
  simp only [Bool.or_eq_false_iff, beq_eq_false_iff_ne]
  refine ⟨⟨⟨⟨⟨?_, ?_⟩, ?_⟩, ?_⟩, ?_⟩, ?_⟩ <;>
    (rintro rfl; revert h; decide)

/-- Digits are not carriage returns. -/
theorem ne_cr_of_digit {c : Char} (h : c.isDigit = true) : c ≠ '\r' := by
  rintro rfl
  revert h
  decide

/-- Stripping the case-insensitive `content-length:` pattern off a buffer
that literally starts with `Content-Length:`. -/
theorem dropLowerPre_clHead (rest : List Char) :
    dropLowerPre clLowerChars (clHeadChars ++ rest) = some rest := rfl

/-- The header regex anchored at the start of `Content-Length: <digits>`
captures exactly those digits. -/
theorem matchCLAt_header (ds : List Char) (hds : ∀ c ∈ ds, c.isDigit = true)
    (hne : ds ≠ []) :
    matchCLAt (clHeadChars ++ ' ' :: ds) = some (digitsToNat ds) := by
  have hdrop2 : ds.dropWhile isJsSpace = ds := by
    cases ds with
    | nil => rfl
    | cons d ds' =>
      rw [List.dropWhile_cons, isJsSpace_of_digit (hds d (List.mem_cons_self d ds'))]
      simp
  have h1 : (' ' :: ds).dropWhile isJsSpace = ds := by
    rw [List.dropWhile_cons]
    simp [isJsSpace, hdrop2]
  have htake : ds.takeWhile Char.isDigit = ds :=
    List.takeWhile_eq_self_iff.mpr hds
  simp only [matchCLAt, dropLowerPre_clHead, h1, htake, if_neg hne]

/-- The regex search over the whole header succeeds at position zero. -/
theorem findCL_header (ds : List Char) (hds : ∀ c ∈ ds, c.isDigit = true)
    (hne : ds ≠ []) :
    findCL (clHeadChars ++ ' ' :: ds) = some (digitsToNat ds) := by
  rw [show clHeadChars ++ ' ' :: ds =
        'C' :: ('o' :: 'n' :: 't' :: 'e' :: 'n' :: 't' :: '-' :: 'L' :: 'e' :: 'n' ::
          'g' :: 't' :: 'h' :: ':' :: ' ' :: ds) from rfl]
  rw [findCL]
  rw [show ('C' :: ('o' :: 'n' :: 't' :: 'e' :: 'n' :: 't' :: '-' :: 'L' :: 'e' :: 'n' ::
        'g' :: 't' :: 'h' :: ':' :: ' ' :: ds)) = clHeadChars ++ ' ' :: ds from rfl]
  rw [matchCLAt_header ds hds hne]

/-- C6 (amended): a length-framed message whose declared length equals the
body's buffered length (in UTF-16 code units — for instance any ASCII
body, where that count coincides with the UTF-8 byte count) can arrive as
one chunk holding the `Content-Length` header plus separator and a later
chunk holding the body: the first chunk parses no message and stays
buffered in full, and one message is parsed exactly when the body chunk
arrives, leaving an empty buffer. -/
theorem stdio_split_reassembly (jparse : List Char → Option μ) (m : μ)
    (ds body : List Char)
    (hds : ∀ c ∈ ds, c.isDigit = true) (hne : ds ≠ [])
    (hval : digitsToNat ds = body.length) (hpos : 0 < body.length)
    (hj : jparse body = some m) :
    stdioFeed jparse [] (clHeadChars ++ ' ' :: ds ++ crlfcrlf) =
      ([], clHeadChars ++ ' ' :: ds ++ crlfcrlf)
    ∧ stdioFeed jparse (clHeadChars ++ ' ' :: ds ++ crlfcrlf) body = ([m], []) := by
  set A : List Char := clHeadChars ++ ' ' :: ds with hA
  have hAlen : A.length = 16 + ds.length := by
    rw [hA]
    simp [clHeadChars]
    omega
  have hprecr : '\r' ∉ A := by
    rw [hA]
    intro hmem
    rcases List.mem_append.mp hmem with hc | hc
    · revert hc
      decide
    · rcases List.mem_cons.mp hc with h' | h'
      · exact absurd h' (by decide)
      · exact absurd (hds _ h') (by decide)
  have step : ∀ (tail : List Char) (fuel : Nat),
      parseStdioFuel jparse (fuel + 1) (A ++ crlfcrlf ++ tail) =
        if (A ++ crlfcrlf ++ tail).length < A.length + 4 + body.length then
          ([], A ++ crlfcrlf ++ tail)
        else
          match jparse (tail.take body.length) with
          | some m' =>
            (m' :: (parseStdioFuel jparse fuel (tail.drop body.length)).1,
              (parseStdioFuel jparse fuel (tail.drop body.length)).2)
          | none => parseStdioFuel jparse fuel (tail.drop body.length) := by
    intro tail fuel
    have hne0 : ¬((A ++ crlfcrlf ++ tail).length = 0) := by
      simp [hAlen]
    have hpref : clHeadChars.isPrefixOf (A ++ crlfcrlf ++ tail) = true := by
      rw [hA, List.append_assoc]
      exact isPrefixOf_append_self _ _
    have hidx : indexOfSub crlfcrlf (A ++ crlfcrlf ++ tail) = some A.length :=
      indexOfSub_crlfcrlf A tail hprecr
    have htakehdr : (A ++ crlfcrlf ++ tail).take A.length = A := by
      rw [List.append_assoc]
      exact List.take_left _ _
    have hfind : findCL ((A ++ crlfcrlf ++ tail).take A.length) = some body.length := by
      rw [htakehdr, hA, findCL_header ds hds hne, hval]
    have hdropbody : (A ++ crlfcrlf ++ tail).drop (A.length + 4) = tail := by
      rw [List.append_assoc, List.drop_append 4]
      rw [show (4 : Nat) = crlfcrlf.length from rfl, List.drop_left]
    have hdroprest : (A ++ crlfcrlf ++ tail).drop (A.length + 4 + body.length) =
        tail.drop body.length := by
      rw [List.append_assoc, Nat.add_assoc, List.drop_append (4 + body.length)]
      rw [show (4 : Nat) + body.length = crlfcrlf.length + body.length from rfl]
      rw [List.drop_append body.length]
    rw [parseStdioFuel]
    rw [if_neg hne0, if_pos hpref, hidx]
    simp only [hfind, hdropbody, hdroprest]
  constructor
  · have h1 : stdioFeed jparse [] (A ++ crlfcrlf) =
        parseStdioFuel jparse ((A ++ crlfcrlf ++ []).length + 1) (A ++ crlfcrlf ++ []) := by
      simp [stdioFeed, parseStdioMessages]
    rw [h1, step [] _]
    rw [if_pos (by simp [hAlen, crlfcrlf]; omega)]
    simp
  · have h2 : stdioFeed jparse (A ++ crlfcrlf) body =
        parseStdioFuel jparse ((A ++ crlfcrlf ++ body).length + 1)
          (A ++ crlfcrlf ++ body) := by
      simp [stdioFeed, parseStdioMessages]
    rw [h2, step body _]
    rw [if_neg (by simp [hAlen, crlfcrlf]; omega)]
    rw [List.take_length _, hj, List.drop_length _, parseStdioFuel_nil]

/-- Witness for C6 (amended) at the ASCII body `{}` declared as 2 bytes. -/
theorem stdio_split_reassembly_witness :
    stdioFeed (fun s => if s = "{}".data then some 42 else none) []
        (clHeadChars ++ ' ' :: ['2'] ++ crlfcrlf) =
      ([], clHeadChars ++ ' ' :: ['2'] ++ crlfcrlf)
    ∧ stdioFeed (fun s => if s = "{}".data then some 42 else none)
        (clHeadChars ++ ' ' :: ['2'] ++ crlfcrlf) "{}".data = ([42], []) := by
  exact stdio_split_reassembly _ 42 ['2'] "{}".data (by decide) (by decide) (by decide)
    (by decide) (by decide)

/-- C6 counterexample: the claim as stated fails for a non-ASCII body.
The body `"é"` is 4 UTF-8 bytes (the count `writeStdioMessage` and §6's
framing declare) but only 3 UTF-16 code units, so after the header chunk
and the complete 4-byte body chunk have both arrived the parser still
considers the body incomplete — it parses zero messages instead of
exactly one and keeps everything buffered. -/
theorem stdio_split_multibyte_counterexample :
    (let jp : List Char → Option Nat :=
      fun s => if s = ['"', 'é', '"'] then some 1 else none
     let chunk1 : List Char := clHeadChars ++ ' ' :: ['4'] ++ crlfcrlf
     let body : List Char := ['"', 'é', '"']
     utf8Len body = 4
     ∧ jp body = some 1
     ∧ stdioFeed jp [] chunk1 = ([], chunk1)
     ∧ stdioFeed jp chunk1 body = ([], chunk1 ++ body)) := by
  exact ⟨rfl, rfl, rfl, rfl⟩

/-- C7: the extraction slices UTF-16 code units where the framing declares
UTF-8 bytes.  On the buffer `Content-Length: 4\r\n\r\n"é"null\n` —
a complete 4-byte-framed message followed by a newline-framed one — the
code slices four code units (grabbing the `n` of `null`), fails both JSON
parses and drops both messages, while the byte-faithful reference
extraction (`parseStdioBytes`, modelled from the spec) parses both. -/
theorem stdio_slice_code_units_not_bytes :
    (let jp : List Char → Option Nat :=
      fun s => if s = ['"', 'é', '"'] then some 1
        else if s = "null".data then some 2 else none
     let buf : List Char :=
      clHeadChars ++ ' ' :: ['4'] ++ crlfcrlf ++ ['"', 'é', '"'] ++ "null\n".data
     utf8Len ['"', 'é', '"'] = 4
     ∧ jp ['"', 'é', '"'] = some 1
     ∧ jp "null".data = some 2
     ∧ parseStdioMessages jp buf = ([], [])
     ∧ parseStdioBytes jp buf = ([1, 2], [])) := by
  exact ⟨rfl, rfl, rfl, rfl, rfl⟩
